import Mathlib

/-!
# Verification of `dxr/vcs.py`

A shallow embedding of DXR's version-control discovery and path-resolution
module (`src/dxr/vcs.py`), together with theorems settling the frozen claims
about it.

Modelling conventions:

* Absolute filesystem paths are modelled as lists of components
  (`List String`): the absolute path `/a/b` is `["a", "b"]` and the
  filesystem root `/` is `[]`.  This models the component view that
  `posixpath.relpath` itself computes via
  `[x for x in abspath(p).split(sep) if x]` for normalized absolute paths.
  Components never contain `'/'` and are nonempty.
* Relative path strings (arguments of `is_tracked` and the URL generators,
  and outputs of `os.path.relpath`) stay plain `String`s, as in the source.
* Python `dict`s are association lists; assignment prepends, so lookup
  (first match) sees the most recent write, matching dict semantics.
* External processes and the filesystem are captured in a `World` record:
  the environment, directory listings, and the per-root answers of the
  `hg`/`git`/`p4` invocations performed at handle-construction time.
  The handles freeze those answers, exactly as the constructors in the
  source capture them once.
* A Python expression that raises (`self.have[path]` with a missing key,
  `None + str`) is modelled as an `Option` that is `none` there.
-/

/-- Model of Python dict lookup `d.get(k)` / `d[k]` over an association list
whose most recent writes are at the front. -/
def lookupAssoc {α β : Type} [DecidableEq α] : List (α × β) → α → Option β
  | [], _ => none
  | (k, v) :: rest, key => if key = k then some v else lookupAssoc rest key

/-- Model of Python `str.startswith('..')`: do the first two characters of
`s` read `".."`?  (`s.data` is the character list of `s`.) -/
def startsWithUp (s : String) : Bool := decide (s.data.take 2 = ['.', '.'])

/-- Model of Python `str.startswith(pre)` for an arbitrary prefix string. -/
def strStartsWith (s pre : String) : Bool := pre.data.isPrefixOf s.data

/-- Model of Python string slicing `s[n:]`. -/
def strDrop (s : String) (n : Nat) : String := ⟨s.data.drop n⟩

/-- Model of `len(commonprefix([a, b]))` from `posixpath.relpath`: the length of the
longest common component prefix of the two split paths. -/
def commonPrefixLen : List String → List String → Nat
  | a :: as, b :: bs => if a = b then commonPrefixLen as bs + 1 else 0
  | _, _ => 0

/-- The component list `rel_list = [pardir] * (len(start_list) - i) + path_list[i:]`
computed by `posixpath.relpath(path, start)` for absolute inputs. -/
def relpathList (path start : List String) : List String :=
  let i := commonPrefixLen start path
  List.replicate (start.length - i) ".." ++ path.drop i

/-- Model of `join(*rel_list)` from `posixpath.relpath`: components (which never
contain `'/'`) joined with `'/'`; the empty list yields `curdir` `"."`. -/
def joinRel : List String → String
  | [] => "."
  | [x] => x
  | x :: xs => x ++ "/" ++ joinRel xs

/-- The string `os.path.relpath(path, start)` returns, for absolute
normalized `path` and `start` given as component lists. -/
def relpathStr (path start : List String) : String := joinRel (relpathList path start)

/-- The containment test of `VcsCache.vcs_for_path` (vcs.py:362):
a root `directory` is kept iff `relpath(abs_path, directory)` does *not*
start with `".."`. -/
def containsDir (abs_path directory : List String) : Bool :=
  !(startsWithUp (relpathStr abs_path directory))

/-- Perforce per-file server state: one record of the `p4 have` answer
(vcs.py:229-230).  The numeric revision is modelled as a `Nat`. -/
structure P4Info where
  depotFile : String
  haveRev : Nat
deriving DecidableEq

/-- The closed set of repository handles (classes `Mercurial`, `Git`,
`Perforce` in vcs.py), each carrying the state its constructor froze:

* `Mercurial.__init__` (vcs.py:92-100): tip revision, the
  `previous_revisions` map `{path: last node that changed it}`, upstream URL;
* `Git.__init__` (vcs.py:164-169): `tracked_files` (the `git ls-files` set),
  `HEAD` revision, and the upstream URL — `None` when the `origin` remote is
  of an unrecognized form (vcs.py:171-189), hence an `Option`;
* `Perforce.__init__` (vcs.py:227-231): the `have` map
  `{root-relative path: P4Info}` and the externally supplied upstream. -/
inductive Vcs where
  | mercurial (root : List String) (revision : String)
      (previous_revisions : List (String × String)) (upstream : String)
  | git (root : List String) (revision : String)
      (tracked_files : List String) (upstream : Option String)
  | perforce (root : List String) (haveMap : List (String × P4Info)) (upstream : String)
deriving DecidableEq

namespace Vcs

/-- Source `Vcs.get_root_dir` (vcs.py:43-45). -/
def get_root_dir : Vcs → List String
  | mercurial root _ _ _ => root
  | git root _ _ _ => root
  | perforce root _ _ => root

/-- Source `Vcs.get_vcs_name` (vcs.py:47-49): the class name. -/
def get_vcs_name : Vcs → String
  | mercurial _ _ _ _ => "Mercurial"
  | git _ _ _ _ => "Git"
  | perforce _ _ _ => "Perforce"

/-- Source `is_tracked` of each backend: membership of the relative path in the
frozen structure (vcs.py:139-140, 201-202, 258-259). -/
def is_tracked : Vcs → String → Bool
  | mercurial _ _ prev _, path => (lookupAssoc prev path).isSome
  | git _ _ tracked _, path => tracked.contains path
  | perforce _ hv _, path => (lookupAssoc hv path).isSome

/-- Source `generate_raw` (vcs.py:142-143, 204-205, 261-263).  `none` models the
exceptions the source raises there: for Git with an unrecognized upstream,
`self.upstream + ...` is `None + str` (a `TypeError`); for Perforce a missing
`have` entry is a `KeyError`. -/
def generate_raw : Vcs → String → Option String
  | mercurial _ rev _ up, path => some (up ++ "raw-file/" ++ rev ++ "/" ++ path)
  | git _ rev _ up, path => up.map (fun u => u ++ "/raw/" ++ rev ++ "/" ++ path)
  | perforce _ hv up, path =>
      (lookupAssoc hv path).map
        (fun info => up ++ info.depotFile ++ "?ac=98&rev1=" ++ toString info.haveRev)

/-- Source `generate_diff` (vcs.py:145-147, 207-210, 265-270). -/
def generate_diff : Vcs → String → Option String
  | mercurial _ _ prev up, path =>
      (lookupAssoc prev path).map (fun node => up ++ "diff/" ++ node ++ "/" ++ path)
  | git _ rev _ up, _path => up.map (fun u => u ++ "/commit/" ++ rev)
  | perforce _ hv up, path =>
      (lookupAssoc hv path).map
        (fun info => up ++ info.depotFile ++ "?ac=19&rev1=" ++ toString (info.haveRev - 1)
          ++ "&rev2=" ++ toString info.haveRev)

/-- Source `generate_blame` (vcs.py:149-150, 212-213, 272-274). -/
def generate_blame : Vcs → String → Option String
  | mercurial _ rev _ up, path => some (up ++ "annotate/" ++ rev ++ "/" ++ path)
  | git _ rev _ up, path => up.map (fun u => u ++ "/blame/" ++ rev ++ "/" ++ path)
  | perforce _ hv up, path =>
      (lookupAssoc hv path).map (fun info => up ++ info.depotFile ++ "?ac=193")

/-- Source `generate_log` (vcs.py:152-153, 215-216, 276-278). -/
def generate_log : Vcs → String → Option String
  | mercurial _ rev _ up, path => some (up ++ "filelog/" ++ rev ++ "/" ++ path)
  | git _ rev _ up, path => up.map (fun u => u ++ "/commits/" ++ rev ++ "/" ++ path)
  | perforce _ hv up, path =>
      (lookupAssoc hv path).map
        (fun info => up ++ info.depotFile ++ "?ac=22#" ++ toString info.haveRev)

end Vcs

/-- Modelled from the spec: `without_ending` comes from `dxr.utils`, which is
not among the provided sources.  The spec says the recognized web-form branch
"strips a versioning suffix", so this removes `ending` from the end of `s`
when present and returns `s` unchanged otherwise. -/
def without_ending (ending s : String) : String :=
  if ending.data.isSuffixOf s.data then ⟨s.data.take (s.data.length - ending.data.length)⟩
  else s

/-- Source `Git._construct_upstream_url` (vcs.py:171-189), with the `git remote -v`
output modelled as `(name, url)` pairs.  The scan looks for `origin`; an
`origin` remote of unrecognized form warns and breaks, leaving the upstream
`None` (modelled `none`). -/
def construct_upstream_url : List (String × String) → Option String
  | [] => none
  | (name, repo) :: rest =>
    if name = "origin" then
      if strStartsWith repo "git@github.com:" then
        some ("https://github.com/" ++ strDrop repo 15)
      else if strStartsWith repo "git://github.com/" || strStartsWith repo "https://github.com/" then
        (let repo2 := without_ending ".git" repo
         if strStartsWith repo2 "git:" then some ("https" ++ strDrop repo2 3) else some repo2)
      else none
    else construct_upstream_url rest

/-- The `TreeConfig` collaborator: the fields of it `tree_to_repos` and the
backends read (vcs.py:300, 238). -/
structure TreeConfig where
  source_folder : List String
  p4web_url : String

/-- The external state the module consults: the process environment, the
filesystem, and the frozen answers of the backend command invocations that
the handle constructors perform per root. -/
structure World where
  environ : List (String × String)
  file_exists : List String → Bool
  listdir : List String → List String
  hg_tip : List String → String
  hg_previous_revisions : List String → List (String × String)
  hg_upstream : List String → String
  git_tracked_files : List String → List String
  git_rev : List String → String
  git_remotes : List String → List (String × String)
  p4_have : List String → List (String × P4Info)

/-- Source `Mercurial.__init__` (vcs.py:92-100): freeze tip, previous-revisions map
and upstream for `root`.  (The hgweb upstream derivation via `urlparse`
(vcs.py:102-115) concerns no claim and is taken as a `World` answer.) -/
def mercurial_construct (w : World) (root : List String) : Vcs :=
  .mercurial root (w.hg_tip root) (w.hg_previous_revisions root) (w.hg_upstream root)

/-- Source `Git.__init__` (vcs.py:164-169). -/
def git_construct (w : World) (root : List String) : Vcs :=
  .git root (w.git_rev root) (w.git_tracked_files root)
    (construct_upstream_url (w.git_remotes root))

/-- Source `Perforce.__init__` (vcs.py:227-231); the `have` keys are stored relative
to `root` (the source strips `root + '/'`), which `w.p4_have` already does. -/
def perforce_construct (w : World) (t : TreeConfig) (root : List String) : Vcs :=
  .perforce root (w.p4_have root) t.p4web_url

/-- The shape of each backend's `claim_vcs_source(path, dirs, tree)`
classmethod: it returns the optional constructed handle together with the
(possibly mutated) `dirs` listing. -/
def ClaimFn : Type :=
  World → TreeConfig → List String → List String → Option Vcs × List String

/-- Source `Mercurial.claim_vcs_source` (vcs.py:129-134): if `.hg` is in the
listing, remove it (so the walk does not descend into it) and construct. -/
def mercurial_claim_vcs_source : ClaimFn := fun w _t path dirs =>
  if ".hg" ∈ dirs then (some (mercurial_construct w path), dirs.erase ".hg")
  else (none, dirs)

/-- Source `Git.claim_vcs_source` (vcs.py:191-196). -/
def git_claim_vcs_source : ClaimFn := fun w _t path dirs =>
  if ".git" ∈ dirs then (some (git_construct w path), dirs.erase ".git")
  else (none, dirs)

/-- Source `Perforce.claim_vcs_source` (vcs.py:233-239): `None` unless the
`P4CONFIG` environment variable is set and a file of that name exists in
`path`; the listing is not touched. -/
def perforce_claim_vcs_source : ClaimFn := fun w t path dirs =>
  match lookupAssoc w.environ "P4CONFIG" with
  | none => (none, dirs)
  | some cfg =>
      if w.file_exists (path ++ [cfg]) then (some (perforce_construct w t path), dirs)
      else (none, dirs)

/-- Source `every_vcs = [Mercurial, Git, Perforce]` (vcs.py:285). -/
def every_vcs : List ClaimFn :=
  [mercurial_claim_vcs_source, git_claim_vcs_source, perforce_claim_vcs_source]

/-- One iteration of the inner loop of `tree_to_repos` (vcs.py:301-304):
attempt one backend's claim and on success write `sources[attempt.root]`. -/
def claim_step (w : World) (t : TreeConfig) (cwd : List String)
    (acc : List (List String × Vcs) × List String) (f : ClaimFn) :
    List (List String × Vcs) × List String :=
  match f w t cwd acc.2 with
  | (some v, dirs') => ((v.get_root_dir, v) :: acc.1, dirs')
  | (none, dirs') => (acc.1, dirs')

/-- The full inner loop `for vcs in every_vcs: ...` of `tree_to_repos`
(vcs.py:301-304, and again vcs.py:312-315) at one directory `cwd` with
listing `dirs`: every backend is attempted in order, each success
overwriting `sources[root]`. -/
def claim_all (w : World) (t : TreeConfig) (sources : List (List String × Vcs))
    (cwd : List String) (dirs : List String) :
    List (List String × Vcs) × List String :=
  every_vcs.foldl (claim_step w t cwd) (sources, dirs)

/-- The downward phase of `tree_to_repos` (vcs.py:300-304): `os.walk` visits
`walkDirs` in order (the traversal itself is the filesystem's business) and
the claim loop runs at each visited directory with its listing. -/
def downward_walk (w : World) (t : TreeConfig) (walkDirs : List (List String)) :
    List (List String × Vcs) :=
  walkDirs.foldl (fun s cwd => (claim_all w t s cwd (w.listdir cwd)).1) []

/-- The upward phase of `tree_to_repos` (vcs.py:309-315):

    directory = tree.source_folder
    while directory != '/' and directory not in sources:
        directory = os.path.dirname(directory)
        for vcs in every_vcs:
            attempt = vcs.claim_vcs_source(directory, os.listdir(directory), tree)
            if attempt is not None:
                sources[directory] = attempt

`os.path.dirname` is `List.dropLast` on component lists and `'/'` is `[]`. -/
def upward_walk (w : World) (t : TreeConfig) (sources : List (List String × Vcs))
    (directory : List String) : List (List String × Vcs) :=
  if directory = [] ∨ (lookupAssoc sources directory).isSome then sources
  else
    upward_walk w t
      (claim_all w t sources directory.dropLast (w.listdir directory.dropLast)).1
      directory.dropLast
termination_by directory.length
decreasing_by
  simp only [List.length_dropLast]
  have hne : directory ≠ [] := by
    intro h
    exact (by simpa [h] using ‹¬(directory = [] ∨ (lookupAssoc sources directory).isSome)›)
  have := List.length_pos.mpr hne
  omega

/-- The length of the absolute path string a component list denotes:
`/a/bc` contributes `1 + len` per component.  This is the `key=len` of
`sorted(sources.keys(), key=len, reverse=True)` (vcs.py:316) transported to
component lists (order-equivalent for the nesting claims: a strictly deeper
path is strictly longer in both measures). -/
def strLen (p : List String) : Nat := p.length + (p.map String.length).sum

/-- The comparison `sorted(..., key=len, reverse=True)` sorts by: earlier
elements have keys ≥ later ones. -/
def lenGe (a b : List String) : Prop := strLen b ≤ strLen a

instance : DecidableRel lenGe := fun a b => inferInstanceAs (Decidable (strLen b ≤ strLen a))

instance : IsTotal (List String) lenGe := ⟨fun a b => le_total (strLen b) (strLen a)⟩

instance : IsTrans (List String) lenGe := ⟨fun _ _ _ h1 h2 => le_trans h2 h1⟩

/-- Source `lookup_order = sorted(sources.keys(), key=len, reverse=True)`
(vcs.py:316): a stable sort by path length, descending. -/
def lookup_order (keys : List (List String)) : List (List String) :=
  keys.insertionSort lenGe

/-- Model of `sources.keys()`: the distinct keys of the association list. -/
def sourcesKeys (sources : List (List String × Vcs)) : List (List String) :=
  (sources.map Prod.fst).dedup

/-- Lines 319-321 of vcs.py: rebuild the registry as an ordered map whose
iteration order is `lookup_order`. -/
def ordered_sources (sources : List (List String × Vcs)) : List (List String × Vcs) :=
  (lookup_order (sourcesKeys sources)).filterMap
    (fun k => (lookupAssoc sources k).map (fun v => (k, v)))

/-- Source `tree_to_repos` (vcs.py:288-322): downward walk, then the upward walk
from the tree root, then deepest-first ordering. -/
def tree_to_repos (w : World) (t : TreeConfig) (walkDirs : List (List String)) :
    List (List String × Vcs) :=
  ordered_sources (upward_walk w t (downward_walk w t walkDirs) t.source_folder)

/-- Source `VcsCache.__init__` state (vcs.py:340-348): the tree's source folder, the
ordered root registry, and the path cache. -/
structure VcsCache where
  source_folder : List String
  repos : List (List String × Vcs)
  path_cache : List (List String × Vcs)
deriving DecidableEq

/-- The registry iteration of `vcs_for_path` (vcs.py:359-366): skip roots
whose `relpath` escapes (`startswith('..')`); for a containing root, return
its handle if it tracks the path relative to the handle's own root, else
continue to the next root. -/
def findVcs : List (List String × Vcs) → List String → Option Vcs
  | [], _ => none
  | (directory, vcs) :: rest, abs_path =>
    if containsDir abs_path directory then
      if vcs.is_tracked (relpathStr abs_path vcs.get_root_dir) then some vcs
      else findVcs rest abs_path
    else findVcs rest abs_path

/-- Source `VcsCache.vcs_for_path` (vcs.py:350-367): answer from the path cache if
present; otherwise make the path absolute against the source folder, scan the
registry, cache a successful hit, and return `self._path_cache.get(path)` —
which is the found handle, or `none` (with *no* cache write) if the scan
found nothing.  Returns the result together with the updated cache state. -/
def vcs_for_path (c : VcsCache) (path : List String) : Option Vcs × VcsCache :=
  match lookupAssoc c.path_cache path with
  | some v => (some v, c)
  | none =>
    match findVcs c.repos (c.source_folder ++ path) with
    | some vcs => (some vcs, ⟨c.source_folder, c.repos, (path, vcs) :: c.path_cache⟩)
    | none => (none, c)

/-! ## Helper lemmas: the resolver scan -/

/-- An entry the scan of `vcs_for_path` passes over: its root does not
contain the path, or its handle reports the relative path untracked. -/
def resolveFails (abs_path : List String) (e : List String × Vcs) : Prop :=
  containsDir abs_path e.1 = false ∨
    e.2.is_tracked (relpathStr abs_path e.2.get_root_dir) = false

instance (abs_path : List String) (e : List String × Vcs) :
    Decidable (resolveFails abs_path e) :=
  inferInstanceAs (Decidable (_ ∨ _))

theorem findVcs_append_of_fails (l1 l2 : List (List String × Vcs)) (abs_path : List String)
    (h : ∀ e ∈ l1, resolveFails abs_path e) :
    findVcs (l1 ++ l2) abs_path = findVcs l2 abs_path := by
  induction l1 with
  | nil => rfl
  | cons e rest ih =>
    obtain ⟨d, v⟩ := e
    have he := h _ (List.mem_cons_self _ _)
    have hrest : ∀ e ∈ rest, resolveFails abs_path e :=
      fun e hm => h e (List.mem_cons_of_mem _ hm)
    rcases he with hc | ht
    · simp [findVcs, hc, ih hrest]
    · by_cases hc : containsDir abs_path d
      · simp [findVcs, hc, ht, ih hrest]
      · simp [findVcs, hc, ih hrest]

/-- A root `r1` is a strict subdirectory of `r2`: some nonempty component
suffix extends `r2` into `r1`. -/
def isStrictSubdir (r1 r2 : List String) : Prop :=
  ∃ rest, rest ≠ [] ∧ r1 = r2 ++ rest

/-- C1: For every file path that lies under a discovered root `r` whose
handle reports the path untracked, and that also lies under an ancestor
discovered root `r2` whose handle reports it tracked, `resolve`
(`VcsCache.vcs_for_path`) returns `r2`'s handle rather than `r`'s: an
untracked result at a deeper containing root causes the resolver to continue
to the next containing root in deepest-first order.  (`pre` and `mid` are the
registry entries before `r` and between `r` and `r2`; they do not claim the
path.) -/
theorem vcs_for_path_prefers_tracked_ancestor
    (c : VcsCache) (path : List String)
    (pre mid post : List (List String × Vcs)) (r r2 : List String) (h h2 : Vcs)
    (hrepos : c.repos = pre ++ (r, h) :: (mid ++ (r2, h2) :: post))
    (hcache : lookupAssoc c.path_cache path = none)
    (_hanc : isStrictSubdir r r2)
    (hpre : ∀ e ∈ pre, resolveFails (c.source_folder ++ path) e)
    (_hcont : containsDir (c.source_folder ++ path) r = true)
    (huntracked : h.is_tracked (relpathStr (c.source_folder ++ path) h.get_root_dir) = false)
    (hmid : ∀ e ∈ mid, resolveFails (c.source_folder ++ path) e)
    (hcont2 : containsDir (c.source_folder ++ path) r2 = true)
    (htracked : h2.is_tracked (relpathStr (c.source_folder ++ path) h2.get_root_dir) = true) :
    (vcs_for_path c path).1 = some h2 := by
  have hall : ∀ e ∈ pre ++ (r, h) :: mid, resolveFails (c.source_folder ++ path) e := by
    intro e he
    rcases List.mem_append.mp he with hp | hm
    · exact hpre e hp
    · rcases List.mem_cons.mp hm with rfl | hm'
      · exact Or.inr huntracked
      · exact hmid e hm'
  have hfind : findVcs c.repos (c.source_folder ++ path) = some h2 := by
    have heq : c.repos = (pre ++ (r, h) :: mid) ++ (r2, h2) :: post := by
      simp [hrepos]
    rw [heq, findVcs_append_of_fails _ _ _ hall]
    simp [findVcs, hcont2, htracked]
  simp [vcs_for_path, hcache, hfind]

theorem vcs_for_path_prefers_tracked_ancestor_witness :
    (vcs_for_path ⟨[], [(["src", "vendor"], Vcs.git ["src", "vendor"] "r" [] none),
        (["src"], Vcs.mercurial ["src"] "tip" [("vendor/f.c", "n1")] "u")], []⟩
      ["src", "vendor", "f.c"]).1
      = some (Vcs.mercurial ["src"] "tip" [("vendor/f.c", "n1")] "u") :=
  vcs_for_path_prefers_tracked_ancestor
    ⟨[], [(["src", "vendor"], Vcs.git ["src", "vendor"] "r" [] none),
        (["src"], Vcs.mercurial ["src"] "tip" [("vendor/f.c", "n1")] "u")], []⟩
    ["src", "vendor", "f.c"] [] [] []
    ["src", "vendor"] ["src"]
    (Vcs.git ["src", "vendor"] "r" [] none)
    (Vcs.mercurial ["src"] "tip" [("vendor/f.c", "n1")] "u")
    rfl rfl ⟨["vendor"], by decide, rfl⟩ (by decide) (by decide) (by decide) (by decide)
    (by decide) (by decide)

/-- C4 counterexample: a session whose single root does not track the query;
`resolve` returns `none` yet the path cache afterwards has **no** entry for
the path — the negative outcome is not cached. -/
theorem vcs_for_path_negative_uncached_counterexample :
    (vcs_for_path ⟨["t"], [(["t", "r"], Vcs.git ["t", "r"] "rev" [] none)], []⟩ ["x"]).1 = none
    ∧ lookupAssoc ((vcs_for_path ⟨["t"], [(["t", "r"], Vcs.git ["t", "r"] "rev" [] none)], []⟩
        ["x"]).2).path_cache ["x"] = none := by
  decide

/-- C4 (amended): only successful resolutions are cached keyed by path.
After `resolve` returns absent for `p`, the cache state is unchanged (so `p`
has no cache entry and a second query re-runs the registry scan); after a
successful resolve, the cache maps `p` to the returned handle. -/
theorem vcs_for_path_cache_discipline (c : VcsCache) (p : List String) :
    ((vcs_for_path c p).1 = none → (vcs_for_path c p).2 = c) ∧
    (∀ v, (vcs_for_path c p).1 = some v →
      lookupAssoc ((vcs_for_path c p).2).path_cache p = some v) := by
  cases hl : lookupAssoc c.path_cache p with
  | some v0 =>
    have he : vcs_for_path c p = (some v0, c) := by simp [vcs_for_path, hl]
    refine ⟨fun h => ?_, fun v hv => ?_⟩
    · rw [he] at h; exact absurd h (by simp)
    · rw [he] at hv ⊢
      simp only [Option.some.injEq] at hv
      simpa [hv] using hl
  | none =>
    cases hf : findVcs c.repos (c.source_folder ++ p) with
    | some vc =>
      have he : vcs_for_path c p
          = (some vc, ⟨c.source_folder, c.repos, (p, vc) :: c.path_cache⟩) := by
        simp [vcs_for_path, hl, hf]
      refine ⟨fun h => ?_, fun v hv => ?_⟩
      · rw [he] at h; exact absurd h (by simp)
      · rw [he] at hv ⊢
        simp only [Option.some.injEq] at hv
        simp [lookupAssoc, hv]
    | none =>
      have he : vcs_for_path c p = (none, c) := by simp [vcs_for_path, hl, hf]
      refine ⟨fun _ => by rw [he], fun v hv => ?_⟩
      rw [he] at hv; exact absurd hv (by simp)

theorem vcs_for_path_cache_discipline_witness :
    (vcs_for_path ⟨["t"], [(["t", "r"], Vcs.git ["t", "r"] "rev" [] none)], []⟩ ["x"]).2
      = ⟨["t"], [(["t", "r"], Vcs.git ["t", "r"] "rev" [] none)], []⟩ :=
  (vcs_for_path_cache_discipline
    ⟨["t"], [(["t", "r"], Vcs.git ["t", "r"] "rev" [] none)], []⟩ ["x"]).1 (by decide)

/-- C5: For every path `p`, calling `resolve` (`VcsCache.vcs_for_path`)
twice on the same session returns the identical result both times (handle or
absent), the root registry being unchanged between the calls. -/
theorem vcs_for_path_second_call_same (c : VcsCache) (p : List String) :
    (vcs_for_path ((vcs_for_path c p).2) p).1 = (vcs_for_path c p).1 := by
  cases hl : lookupAssoc c.path_cache p with
  | some v0 => simp [vcs_for_path, hl]
  | none =>
    cases hf : findVcs c.repos (c.source_folder ++ p) with
    | some vc => simp [vcs_for_path, hl, hf, lookupAssoc]
    | none => simp [vcs_for_path, hl, hf]

/-! ## Perforce detection (C10) -/

/-- C10: For every candidate directory, `Perforce.claim_vcs_source` returns
`none` whenever the `P4CONFIG` environment variable is absent, regardless of
the directory's contents; and a Perforce handle is constructed exactly when
`P4CONFIG` is set to some name and a file of that name exists in the
candidate directory. -/
theorem perforce_claim_requires_p4config (w : World) (t : TreeConfig)
    (path dirs : List String) :
    (lookupAssoc w.environ "P4CONFIG" = none →
      (perforce_claim_vcs_source w t path dirs).1 = none) ∧
    ((perforce_claim_vcs_source w t path dirs).1.isSome = true ↔
      ∃ cfg, lookupAssoc w.environ "P4CONFIG" = some cfg ∧
        w.file_exists (path ++ [cfg]) = true) := by
  cases he : lookupAssoc w.environ "P4CONFIG" with
  | none =>
    refine ⟨fun _ => by simp [perforce_claim_vcs_source, he], ?_⟩
    simp [perforce_claim_vcs_source, he]
  | some cfg =>
    refine ⟨fun h => by simp [he] at h, ?_⟩
    by_cases hf : w.file_exists (path ++ [cfg]) = true
    · simp [perforce_claim_vcs_source, he, hf]
    · simp only [Bool.not_eq_true] at hf
      simp [perforce_claim_vcs_source, he, hf]

theorem perforce_claim_requires_p4config_witness :
    (perforce_claim_vcs_source
      ⟨[], fun _ => false, fun _ => [], fun _ => "", fun _ => [], fun _ => "",
       fun _ => [], fun _ => "", fun _ => [], fun _ => []⟩
      ⟨[], "u"⟩ ["a"] []).1 = none :=
  (perforce_claim_requires_p4config
    ⟨[], fun _ => false, fun _ => [], fun _ => "", fun _ => [], fun _ => "",
     fun _ => [], fun _ => "", fun _ => [], fun _ => []⟩
    ⟨[], "u"⟩ ["a"] []).1 rfl

/-! ## Git upstream URL construction (C6, C7) -/

/-- C6 counterexample: for the remote `git@github.com:org/repo.git` the code
returns `https://github.com/org/repo.git` — the `.git` suffix is kept and no
trailing slash is added — not `https://github.com/org/repo/` as claimed. -/
theorem construct_upstream_url_ssh_counterexample :
    construct_upstream_url [("origin", "git@github.com:org/repo.git")]
      = some "https://github.com/org/repo.git" ∧
    ("https://github.com/org/repo.git" : String) ≠ "https://github.com/org/repo/" := by
  decide

/-- C6 (amended): constructing a Git handle from a checkout whose origin
remote URL has the form `git@github.com:<rest>` yields the upstream base
`https://github.com/<rest>`: only the `git@github.com:` prefix is rewritten;
a `.git` suffix is retained and no trailing slash is appended. -/
theorem construct_upstream_url_ssh_form (s : String) :
    construct_upstream_url [("origin", "git@github.com:" ++ s)]
      = some ("https://github.com/" ++ s) := by
  have hpre : strStartsWith ("git@github.com:" ++ s) "git@github.com:" = true := by
    unfold strStartsWith
    rw [String.data_append]
    exact List.isPrefixOf_iff_prefix.mpr ⟨s.data, rfl⟩
  have h15 : ("git@github.com:" : String).data.length = 15 := rfl
  have hdrop : strDrop ("git@github.com:" ++ s) 15 = s := by
    unfold strDrop
    rw [String.data_append, ← h15, List.drop_left]
  simp [construct_upstream_url, hpre, hdrop]

/-- C7: when a Git checkout's origin remote URL is of an unrecognized form,
`claim_vcs_source` still constructs and returns a handle (so discovery is not
aborted), and only the handle's URL generation degrades: all four
`generate_*` calls on that handle yield the raising outcome (`none`) instead
of a URL. -/
theorem git_unrecognized_remote_degrades (w : World) (t : TreeConfig)
    (cwd dirs : List String) (u : String)
    (hgit : ".git" ∈ dirs)
    (hrem : w.git_remotes cwd = [("origin", u)])
    (h1 : strStartsWith u "git@github.com:" = false)
    (h2 : strStartsWith u "git://github.com/" = false)
    (h3 : strStartsWith u "https://github.com/" = false) :
    (git_claim_vcs_source w t cwd dirs).1 = some (git_construct w cwd) ∧
    ∀ p : String,
      (git_construct w cwd).generate_raw p = none ∧
      (git_construct w cwd).generate_log p = none ∧
      (git_construct w cwd).generate_diff p = none ∧
      (git_construct w cwd).generate_blame p = none := by
  have hup : construct_upstream_url (w.git_remotes cwd) = none := by
    rw [hrem]
    simp [construct_upstream_url, h1, h2, h3]
  refine ⟨by simp [git_claim_vcs_source, hgit], fun p => ?_⟩
  simp [git_construct, hup, Vcs.generate_raw, Vcs.generate_log, Vcs.generate_diff,
    Vcs.generate_blame]

theorem git_unrecognized_remote_degrades_witness :
    (git_claim_vcs_source
        ⟨[], fun _ => false, fun _ => [], fun _ => "", fun _ => [], fun _ => "",
         fun _ => [], fun _ => "r", fun _ => [("origin", "svn://host/repo")], fun _ => []⟩
        ⟨[], "u"⟩ ["a"] [".git"]).1
      = some (git_construct
        ⟨[], fun _ => false, fun _ => [], fun _ => "", fun _ => [], fun _ => "",
         fun _ => [], fun _ => "r", fun _ => [("origin", "svn://host/repo")], fun _ => []⟩
        ["a"]) ∧
    (git_construct
        ⟨[], fun _ => false, fun _ => [], fun _ => "", fun _ => [], fun _ => "",
         fun _ => [], fun _ => "r", fun _ => [("origin", "svn://host/repo")], fun _ => []⟩
        ["a"]).generate_raw "f.c" = none := by
  have h := git_unrecognized_remote_degrades
    ⟨[], fun _ => false, fun _ => [], fun _ => "", fun _ => [], fun _ => "",
     fun _ => [], fun _ => "r", fun _ => [("origin", "svn://host/repo")], fun _ => []⟩
    ⟨[], "u"⟩ ["a"] [".git"] "svn://host/repo" (by decide) rfl (by decide) (by decide)
    (by decide)
  exact ⟨h.1, (h.2 "f.c").1⟩

/-! ## The discovery claim loop (C3) -/

/-- The world used in the C3 scenario: no `P4CONFIG`, and backend answers
that are constants (their values are irrelevant to which backend claims). -/
def exW3 : World :=
  ⟨[], fun _ => false, fun _ => [], fun _ => "t", fun _ => [], fun _ => "u",
   fun _ => [], fun _ => "r", fun _ => [], fun _ => []⟩

/-- C3 counterexample: a directory bearing both a `.hg` and a `.git` marker.
The claim loop attempts **all** backend variants — both markers are consumed
from the listing — and the registry entry for the directory ends up being the
Git handle (the *last* claimant), not the Mercurial one (the first in the
priority order), refuting both halves of the claim. -/
theorem claim_all_first_claimant_counterexample :
    ((lookupAssoc (claim_all exW3 ⟨[], "u"⟩ [] ["r"] [".hg", ".git"]).1 ["r"]).map
        Vcs.get_vcs_name = some "Git") ∧
    ((claim_all exW3 ⟨[], "u"⟩ [] ["r"] [".hg", ".git"]).2 = []) ∧
    (some "Git" ≠ some "Mercurial") := by
  decide

/-- C3 (amended): during discovery all backend variants are attempted at a
directory even after one claims it, each successful claim overwriting the
registry entry; consequently a directory bearing markers of both Mercurial
and Git (with Perforce not applying) resolves to Git — the *last* claiming
backend in the fixed order (Mercurial, then Git, then Perforce) — and both
metadata markers are consumed from the listing. -/
theorem claim_all_last_claimant_wins (w : World) (t : TreeConfig)
    (sources : List (List String × Vcs)) (cwd dirs : List String)
    (hhg : ".hg" ∈ dirs) (hgit : ".git" ∈ dirs)
    (hp4 : lookupAssoc w.environ "P4CONFIG" = none) :
    lookupAssoc (claim_all w t sources cwd dirs).1 cwd = some (git_construct w cwd) ∧
    (claim_all w t sources cwd dirs).2 = (dirs.erase ".hg").erase ".git" := by
  have hne : (".git" : String) ≠ ".hg" := by decide
  have hgit' : ".git" ∈ dirs.erase ".hg" := (List.mem_erase_of_ne hne).mpr hgit
  constructor
  · simp [claim_all, every_vcs, claim_step, mercurial_claim_vcs_source,
      git_claim_vcs_source, perforce_claim_vcs_source, hhg, hgit', hp4, lookupAssoc,
      mercurial_construct, git_construct, Vcs.get_root_dir]
  · simp [claim_all, every_vcs, claim_step, mercurial_claim_vcs_source,
      git_claim_vcs_source, perforce_claim_vcs_source, hhg, hgit', hp4]

theorem claim_all_last_claimant_wins_witness :
    lookupAssoc (claim_all exW3 ⟨[], "u"⟩ [] ["r"] [".hg", ".git"]).1 ["r"]
        = some (git_construct exW3 ["r"]) ∧
    (claim_all exW3 ⟨[], "u"⟩ [] ["r"] [".hg", ".git"]).2
        = (([".hg", ".git"].erase ".hg").erase ".git") :=
  claim_all_last_claimant_wins exW3 ⟨[], "u"⟩ [] ["r"] [".hg", ".git"]
    (by decide) (by decide) rfl

/-! ## Deepest-first ordering of the registry (C2) -/

theorem strLen_lt_of_strict_subdir {r1 r2 : List String} (h : isStrictSubdir r1 r2) :
    strLen r2 < strLen r1 := by
  obtain ⟨rest, hne, rfl⟩ := h
  have hpos : 1 ≤ rest.length := List.length_pos.mpr hne
  simp only [strLen, List.length_append, List.map_append, List.sum_append]
  omega

/-- The position of the first occurrence of `x` in `l` (iteration order of
the rebuilt ordered registry). -/
def idxOf : List (List String) → List String → Nat
  | [], _ => 0
  | a :: l, x => if x = a then 0 else idxOf l x + 1

theorem idxOf_lt_length {l : List (List String)} {x : List String} (h : x ∈ l) :
    idxOf l x < l.length := by
  induction l with
  | nil => simp at h
  | cons a l ih =>
    by_cases hx : x = a
    · simp [idxOf, hx]
    · have h' : x ∈ l := by
        rcases List.mem_cons.mp h with h | h
        · exact absurd h hx
        · exact h
      simp only [idxOf, hx, if_false, List.length_cons]
      exact Nat.succ_lt_succ (ih h')

theorem get_idxOf {l : List (List String)} {x : List String} (h : x ∈ l)
    (hlt : idxOf l x < l.length) : l.get ⟨idxOf l x, hlt⟩ = x := by
  induction l with
  | nil => simp at h
  | cons a l ih =>
    by_cases hx : x = a
    · simp [idxOf, hx] at hlt ⊢
    · have h' : x ∈ l := by
        rcases List.mem_cons.mp h with h | h
        · exact absurd h hx
        · exact h
      simp only [idxOf, hx, if_false] at hlt ⊢
      exact ih h' _

theorem idxOf_lt_of_sorted_strict {keys : List (List String)} {r1 r2 : List String}
    (h1 : r1 ∈ keys) (h2 : r2 ∈ keys) (hlt : strLen r2 < strLen r1) :
    idxOf (lookup_order keys) r1 < idxOf (lookup_order keys) r2 := by
  have hs : (lookup_order keys).Sorted lenGe := List.sorted_insertionSort lenGe keys
  have hperm := List.perm_insertionSort lenGe keys
  have h1' : r1 ∈ lookup_order keys := hperm.mem_iff.mpr h1
  have h2' : r2 ∈ lookup_order keys := hperm.mem_iff.mpr h2
  have hi1 : idxOf (lookup_order keys) r1 < (lookup_order keys).length := idxOf_lt_length h1'
  have hi2 : idxOf (lookup_order keys) r2 < (lookup_order keys).length := idxOf_lt_length h2'
  by_contra hle
  push_neg at hle
  rcases lt_or_eq_of_le hle with hlt2 | heq
  · have hrel := hs.rel_get_of_lt
      (show (⟨idxOf (lookup_order keys) r2, hi2⟩ : Fin (lookup_order keys).length)
          < ⟨idxOf (lookup_order keys) r1, hi1⟩ from hlt2)
    rw [get_idxOf h2' hi2, get_idxOf h1' hi1] at hrel
    exact absurd hrel (by simp only [lenGe]; omega)
  · have e1 := get_idxOf h1' hi1
    have e2 := get_idxOf h2' hi2
    have heq2 : r2 = r1 := by
      rw [← e1, ← e2]
      congr 1
      exact Fin.ext heq
    rw [heq2] at hlt
    exact absurd hlt (lt_irrefl _)

theorem lookupAssoc_isSome_of_mem_map_fst {sources : List (List String × Vcs)}
    {k : List String} (h : k ∈ sources.map Prod.fst) :
    (lookupAssoc sources k).isSome = true := by
  induction sources with
  | nil => simp at h
  | cons e rest ih =>
    obtain ⟨k', v⟩ := e
    by_cases hk : k = k'
    · simp [lookupAssoc, hk]
    · simp only [List.map_cons, List.mem_cons] at h
      rcases h with h | h
      · exact absurd h hk
      · simp [lookupAssoc, hk, ih h]

theorem map_fst_filterMap_lookup (sources : List (List String × Vcs)) :
    ∀ (L : List (List String)),
      (∀ k ∈ L, (lookupAssoc sources k).isSome = true) →
      (L.filterMap (fun k => (lookupAssoc sources k).map (fun v => (k, v)))).map Prod.fst
        = L := by
  intro L
  induction L with
  | nil => intro _; rfl
  | cons k L' ih =>
    intro h
    obtain ⟨v, hv⟩ := Option.isSome_iff_exists.mp (h k (List.mem_cons_self _ _))
    have hrest := fun k' hk' => h k' (List.mem_cons_of_mem _ hk')
    simp [List.filterMap_cons, hv, ih hrest]

theorem map_fst_ordered_sources (sources : List (List String × Vcs)) :
    (ordered_sources sources).map Prod.fst = lookup_order (sourcesKeys sources) := by
  unfold ordered_sources
  apply map_fst_filterMap_lookup
  intro k hk
  have hmem : k ∈ sourcesKeys sources :=
    (List.perm_insertionSort lenGe (sourcesKeys sources)).mem_iff.mp hk
  exact lookupAssoc_isSome_of_mem_map_fst (List.mem_dedup.mp hmem)

/-- C2: for every pair of roots `r1`, `r2` in the registry returned by
discovery (`tree_to_repos`) with `r1` a strict subdirectory of `r2`, `r1`
appears before `r2` in the registry's iteration order: iteration order is by
path length descending, so a nested repository root is always consulted
before an ancestor root for any path contained in both. -/
theorem tree_to_repos_deepest_first (w : World) (t : TreeConfig)
    (walkDirs : List (List String)) (r1 r2 : List String)
    (h1 : r1 ∈ (tree_to_repos w t walkDirs).map Prod.fst)
    (h2 : r2 ∈ (tree_to_repos w t walkDirs).map Prod.fst)
    (hsub : isStrictSubdir r1 r2) :
    idxOf ((tree_to_repos w t walkDirs).map Prod.fst) r1
      < idxOf ((tree_to_repos w t walkDirs).map Prod.fst) r2 := by
  have hreg : tree_to_repos w t walkDirs
      = ordered_sources (upward_walk w t (downward_walk w t walkDirs) t.source_folder) :=
    rfl
  rw [hreg, map_fst_ordered_sources] at h1 h2 ⊢
  have h1' := (List.perm_insertionSort lenGe _).mem_iff.mp h1
  have h2' := (List.perm_insertionSort lenGe _).mem_iff.mp h2
  exact idxOf_lt_of_sorted_strict h1' h2' (strLen_lt_of_strict_subdir hsub)

theorem upward_walk_nil (w : World) (t : TreeConfig) (s : List (List String × Vcs)) :
    upward_walk w t s [] = s := by
  rw [upward_walk]
  simp

/-- The world used in the C2 scenario: a Git checkout at `/a` and a Mercurial
checkout nested at `/a/b`. -/
def exW2 : World :=
  ⟨[], fun _ => false,
   fun d => if d = ["a"] then [".git"] else if d = ["a", "b"] then [".hg"] else [],
   fun _ => "t", fun _ => [], fun _ => "u", fun _ => [], fun _ => "r", fun _ => [],
   fun _ => []⟩

theorem tree_to_repos_deepest_first_witness :
    idxOf ((tree_to_repos exW2 ⟨[], "u"⟩ [["a"], ["a", "b"]]).map Prod.fst) ["a", "b"]
      < idxOf ((tree_to_repos exW2 ⟨[], "u"⟩ [["a"], ["a", "b"]]).map Prod.fst) ["a"] := by
  have hreg : tree_to_repos exW2 ⟨[], "u"⟩ [["a"], ["a", "b"]]
      = ordered_sources (downward_walk exW2 ⟨[], "u"⟩ [["a"], ["a", "b"]]) := by
    show ordered_sources
        (upward_walk exW2 ⟨[], "u"⟩ (downward_walk exW2 ⟨[], "u"⟩ [["a"], ["a", "b"]]) [])
      = _
    rw [upward_walk_nil]
  exact tree_to_repos_deepest_first exW2 ⟨[], "u"⟩ [["a"], ["a", "b"]] ["a", "b"] ["a"]
    (by rw [hreg]; decide) (by rw [hreg]; decide) ⟨["b"], by decide, rfl⟩

/-! ## The containment test of the resolver (C8) -/

theorem commonPrefixLen_of_prefix : ∀ {r l : List String}, r <+: l →
    commonPrefixLen r l = r.length := by
  intro r
  induction r with
  | nil => intro l _; rfl
  | cons a as ih =>
    intro l hp
    obtain ⟨ts, rfl⟩ := hp
    have hrec : commonPrefixLen as (as ++ ts) = as.length := ih ⟨ts, rfl⟩
    simp [commonPrefixLen, List.append_eq, hrec]

theorem commonPrefixLen_lt_of_not_prefix : ∀ {r l : List String}, ¬ r <+: l →
    commonPrefixLen r l < r.length := by
  intro r
  induction r with
  | nil => intro l h; exact absurd List.nil_prefix h
  | cons a as ih =>
    intro l h
    cases l with
    | nil => simp [commonPrefixLen]
    | cons b bs =>
      by_cases hab : a = b
      · subst hab
        have h' : ¬ as <+: bs := fun hp => h (List.cons_prefix_cons.mpr ⟨rfl, hp⟩)
        simp only [commonPrefixLen, if_pos rfl, List.length_cons]
        exact Nat.succ_lt_succ (ih h')
      · simp [commonPrefixLen, hab]

theorem startsWithUp_append_slash (x r : String) :
    startsWithUp (x ++ "/" ++ r) = startsWithUp x := by
  unfold startsWithUp
  rw [String.data_append, String.data_append]
  have hslash : ("/" : String).data = ['/'] := rfl
  rw [hslash]
  have hne : ('/' : Char) ≠ '.' := by decide
  rw [decide_eq_decide]
  rcases hx : x.data with _ | ⟨c, cs⟩
  · simp [hne]
  · rcases cs with _ | ⟨c2, cs2⟩
    · simp [List.take_succ_cons, hne]
    · simp [List.take_succ_cons]

theorem startsWithUp_joinRel (x : String) (l : List String) :
    startsWithUp (joinRel (x :: l)) = startsWithUp x := by
  cases l with
  | nil => rfl
  | cons y ys =>
    show startsWithUp (x ++ "/" ++ joinRel (y :: ys)) = startsWithUp x
    exact startsWithUp_append_slash x (joinRel (y :: ys))

/-- The head of a relative-component list does not begin with `".."` (true of
the empty list, whose joined form is `"."`). -/
def relHeadOk : List String → Bool
  | [] => true
  | hd :: _ => !(startsWithUp hd)

/-- C8 counterexample: the path `/a/..foo` lies within the subtree of the
root `/a`, yet the containment test rejects it, because its relative path
`..foo` starts with the two characters `".."` without escaping upward. -/
theorem containsDir_subtree_counterexample :
    ¬ (containsDir ["a", "..foo"] ["a"] = true ↔ ["a"] <+: ["a", "..foo"]) := by
  decide

/-- C8 (amended): the resolver treats a path (made absolute against the tree
root) as contained in a root iff `relpath(path, root)` does not start with
the two characters `".."` — equivalently, iff the root's components are a
prefix of the path's components **and** the first component of the path
below the root does not itself begin with `".."` (so a path inside the
subtree whose next component looks like `..foo` is wrongly skipped);
moreover a root whose containment test fails is skipped without its
tracked-file test being consulted. -/
theorem containsDir_characterization (abs_path root : List String) :
    (containsDir abs_path root = true ↔
      root <+: abs_path ∧ relHeadOk (abs_path.drop root.length) = true) ∧
    (∀ (v : Vcs) (rest : List (List String × Vcs)),
      containsDir abs_path root = false →
      findVcs ((root, v) :: rest) abs_path = findVcs rest abs_path) := by
  constructor
  · by_cases hp : root <+: abs_path
    · have hi : commonPrefixLen root abs_path = root.length := commonPrefixLen_of_prefix hp
      unfold containsDir relpathStr relpathList
      rw [hi]
      simp only [Nat.sub_self, List.replicate_zero, List.nil_append]
      cases hd : abs_path.drop root.length with
      | nil =>
        have hdot : startsWithUp (joinRel []) = false := by decide
        simp [hdot, hp, relHeadOk]
      | cons x xs =>
        rw [startsWithUp_joinRel]
        simp [relHeadOk, hp]
    · have hi : commonPrefixLen root abs_path < root.length :=
        commonPrefixLen_lt_of_not_prefix hp
      unfold containsDir relpathStr relpathList
      obtain ⟨m, hm⟩ : ∃ m, root.length - commonPrefixLen root abs_path = m + 1 :=
        ⟨root.length - commonPrefixLen root abs_path - 1, by omega⟩
      show (!startsWithUp (joinRel
          (List.replicate (root.length - commonPrefixLen root abs_path) ".."
            ++ List.drop (commonPrefixLen root abs_path) abs_path))) = true ↔ _
      rw [hm]
      rw [List.replicate_succ, List.cons_append, startsWithUp_joinRel]
      have hup : startsWithUp ".." = true := by decide
      simp [hup, hp]
  · intro v rest h
    simp [findVcs, h]

theorem containsDir_characterization_witness :
    findVcs [(["a"], Vcs.git ["a"] "r" [] none)] ["b", "x"] = none := by
  have h := (containsDir_characterization ["b", "x"] ["a"]).2
    (Vcs.git ["a"] "r" [] none) [] (by decide)
  simpa using h

/-! ## The upward walk of discovery (C9) -/

/-- No backend's `claim_vcs_source` claims directory `d` (given its listing
and the process environment). -/
def no_backend_claims (w : World) (t : TreeConfig) (d : List String) : Prop :=
  (mercurial_claim_vcs_source w t d (w.listdir d)).1 = none ∧
  (git_claim_vcs_source w t d (w.listdir d)).1 = none ∧
  (perforce_claim_vcs_source w t d (w.listdir d)).1 = none

instance (w : World) (t : TreeConfig) (d : List String) :
    Decidable (no_backend_claims w t d) :=
  inferInstanceAs (Decidable (_ ∧ _ ∧ _))

theorem mercurial_claim_none {w : World} {t : TreeConfig} {d dirs : List String}
    (h : (mercurial_claim_vcs_source w t d dirs).1 = none) :
    mercurial_claim_vcs_source w t d dirs = (none, dirs) := by
  by_cases hm : ".hg" ∈ dirs
  · simp [mercurial_claim_vcs_source, hm] at h
  · simp [mercurial_claim_vcs_source, hm]

theorem git_claim_none {w : World} {t : TreeConfig} {d dirs : List String}
    (h : (git_claim_vcs_source w t d dirs).1 = none) :
    git_claim_vcs_source w t d dirs = (none, dirs) := by
  by_cases hm : ".git" ∈ dirs
  · simp [git_claim_vcs_source, hm] at h
  · simp [git_claim_vcs_source, hm]

theorem perforce_claim_none {w : World} {t : TreeConfig} {d dirs : List String}
    (h : (perforce_claim_vcs_source w t d dirs).1 = none) :
    perforce_claim_vcs_source w t d dirs = (none, dirs) := by
  cases he : lookupAssoc w.environ "P4CONFIG" with
  | none => simp [perforce_claim_vcs_source, he]
  | some cfg =>
    by_cases hf : w.file_exists (d ++ [cfg]) = true
    · simp [perforce_claim_vcs_source, he, hf] at h
    · simp only [Bool.not_eq_true] at hf
      simp [perforce_claim_vcs_source, he, hf]

theorem claim_all_of_no_claims {w : World} {t : TreeConfig} {d : List String}
    (s : List (List String × Vcs)) (h : no_backend_claims w t d) :
    claim_all w t s d (w.listdir d) = (s, w.listdir d) := by
  obtain ⟨h1, h2, h3⟩ := h
  have e1 := mercurial_claim_none h1
  have e2 := git_claim_none h2
  have e3 := perforce_claim_none h3
  simp [claim_all, every_vcs, List.foldl, claim_step, e1, e2, e3]

theorem dropLast_take_succ {p : List String} {m : Nat} (h : m + 1 ≤ p.length) :
    (p.take (m + 1)).dropLast = p.take m := by
  rw [List.dropLast_eq_take, List.length_take, List.take_take]
  congr 1
  omega

theorem upward_walk_of_no_claims (w : World) (t : TreeConfig)
    (s : List (List String × Vcs)) :
    ∀ (n : Nat) (dir : List String), dir.length = n →
      (∀ k, k < dir.length → no_backend_claims w t (dir.take k)) →
      upward_walk w t s dir = s := by
  intro n
  induction n with
  | zero =>
    intro dir hlen _
    have hdir : dir = [] := List.length_eq_zero.mp hlen
    rw [upward_walk, if_pos (Or.inl hdir)]
  | succ m ih =>
    intro dir hlen hk
    rw [upward_walk]
    by_cases hstop : dir = [] ∨ (lookupAssoc s dir).isSome
    · rw [if_pos hstop]
    · rw [if_neg hstop]
      have hne : dir ≠ [] := fun h => hstop (Or.inl h)
      have hpos : 0 < dir.length := List.length_pos.mpr hne
      have hnc : no_backend_claims w t dir.dropLast := by
        rw [List.dropLast_eq_take]
        exact hk (dir.length - 1) (by omega)
      rw [claim_all_of_no_claims s hnc]
      show upward_walk w t s dir.dropLast = s
      refine ih dir.dropLast (by rw [List.length_dropLast, hlen]; omega) ?_
      intro k hk'
      rw [List.length_dropLast] at hk'
      have hkt : dir.dropLast.take k = dir.take k := by
        rw [List.dropLast_eq_take, List.take_take]
        congr 1
        omega
      rw [hkt]
      exact hk k (by omega)

theorem upward_walk_stops (w : World) (t : TreeConfig)
    (s : List (List String × Vcs)) (p : List String) (j : Nat)
    (hclaim : (lookupAssoc (claim_all w t s (p.take j) (w.listdir (p.take j))).1
        (p.take j)).isSome = true) :
    ∀ i, j < i → i ≤ p.length →
      (∀ k, k < i → j < k →
        no_backend_claims w t (p.take k) ∧ lookupAssoc s (p.take k) = none) →
      lookupAssoc s (p.take i) = none →
      upward_walk w t s (p.take i)
        = (claim_all w t s (p.take j) (w.listdir (p.take j))).1 := by
  intro i
  induction i with
  | zero => intro h; omega
  | succ m ih =>
    intro hji him hks hsi
    rw [upward_walk]
    have hlen : (p.take (m + 1)).length = m + 1 := by rw [List.length_take]; omega
    have hne : p.take (m + 1) ≠ [] := by
      intro h
      rw [h] at hlen
      simp at hlen
    have hcond : ¬(p.take (m + 1) = [] ∨ (lookupAssoc s (p.take (m + 1))).isSome) := by
      rintro (h | h)
      · exact hne h
      · rw [hsi] at h
        simp at h
    rw [if_neg hcond]
    rw [dropLast_take_succ him]
    by_cases hjm : j = m
    · subst hjm
      rw [upward_walk, if_pos (Or.inr hclaim)]
    · have hjm' : j < m := by omega
      obtain ⟨hnc, hnone⟩ := hks m (by omega) hjm'
      rw [claim_all_of_no_claims s hnc]
      show upward_walk w t s (p.take m) = _
      exact ih hjm' (by omega) (fun k h1 h2 => hks k (by omega) h2) hnone

/-- C9: if after the downward walk the tree root itself is not among the
claimed roots, discovery walks upward from the tree root toward the
filesystem root, attempting each backend's claim at each successive ancestor
(`t.source_folder.take k` for `k` descending), and stops at the first
ancestor claimed by any backend, returning the registry as extended by the
claim loop at that ancestor; if no ancestor is claimed before reaching the
filesystem root, no additional root is added and the upward walk terminates
with the registry unchanged. -/
theorem tree_to_repos_upward_phase (w : World) (t : TreeConfig)
    (s : List (List String × Vcs)) :
    ((∀ k, k < t.source_folder.length → no_backend_claims w t (t.source_folder.take k)) →
      upward_walk w t s t.source_folder = s) ∧
    (∀ j, j < t.source_folder.length →
      lookupAssoc s t.source_folder = none →
      (∀ k, k < t.source_folder.length → j < k →
        no_backend_claims w t (t.source_folder.take k) ∧
        lookupAssoc s (t.source_folder.take k) = none) →
      (lookupAssoc (claim_all w t s (t.source_folder.take j)
          (w.listdir (t.source_folder.take j))).1 (t.source_folder.take j)).isSome = true →
      upward_walk w t s t.source_folder
        = (claim_all w t s (t.source_folder.take j)
            (w.listdir (t.source_folder.take j))).1) := by
  constructor
  · intro h
    exact upward_walk_of_no_claims w t s t.source_folder.length t.source_folder rfl h
  · intro j hj hroot hks hclaim
    have h := upward_walk_stops w t s t.source_folder j hclaim t.source_folder.length hj
      (le_refl _) hks (by rw [List.take_length]; exact hroot)
    rwa [List.take_length] at h

/-- The world of the C9 no-claims scenario: empty listings everywhere and no
`P4CONFIG`. -/
def exW9a : World :=
  ⟨[], fun _ => false, fun _ => [], fun _ => "t", fun _ => [], fun _ => "u",
   fun _ => [], fun _ => "r", fun _ => [], fun _ => []⟩

/-- The world of the C9 stop-at-first-ancestor scenario: the ancestor `/a` of
the tree root `/a/b` has a `.git` marker. -/
def exW9b : World :=
  ⟨[], fun _ => false, fun d => if d = ["a"] then [".git"] else [], fun _ => "t",
   fun _ => [], fun _ => "u", fun _ => [], fun _ => "r", fun _ => [], fun _ => []⟩

theorem tree_to_repos_upward_phase_witness :
    upward_walk exW9a ⟨["a", "b"], "u"⟩ [] ["a", "b"] = [] ∧
    upward_walk exW9b ⟨["a", "b"], "u"⟩ [] ["a", "b"]
      = (claim_all exW9b ⟨["a", "b"], "u"⟩ [] ["a"] (exW9b.listdir ["a"])).1 := by
  refine ⟨(tree_to_repos_upward_phase exW9a ⟨["a", "b"], "u"⟩ []).1 (by decide), ?_⟩
  exact (tree_to_repos_upward_phase exW9b ⟨["a", "b"], "u"⟩ []).2 1 (by decide) (by decide)
    (by decide) (by decide)
